import Mathlib

/-!
Shallow embedding of the `golang-epsstool-api` repository (a CLI client for
the EPSS vulnerability-scoring REST API) and proofs about its behavior.

Modelling conventions:
* Go `float64` values are modelled as `ℚ` (exact rational arithmetic).
* The HTTP transport is an oracle `Net` mapping the request's query
  parameters to an outcome; `json.Unmarshal` of the response bytes is
  represented by the body already being carried as `Except String JVal`
  (the parse outcome the external JSON library would produce).
* `strconv.ParseFloat` is an external collaborator and is passed in as an
  oracle `String → Option ℚ` (the `parseF` field of `Repo`).
* A Go `map[string]float64` is modelled as an association list with unique
  keys; new keys are appended in insertion order.  Go's map iteration order
  is unspecified and `sort.Slice` is unstable; `GetHighestIncreases` fixes
  insertion order with a stable insertion sort (adequate only for
  properties insensitive to the order of tied entries), while
  `GetHighestIncreasesIter` makes the unspecified iteration order an
  explicit parameter and captures every output the program can produce.
* Go `int` arguments `days` and `limit` are modelled as `Nat` (the CLI
  scenarios under test use nonnegative values).
* `strconv.FormatFloat(x, 'f', 2, 64)` writes the decimal numeral closest
  to `x` with two fractional digits (ties to even); the model represents
  that numeral by its value in hundredths, `roundHundredths x : ℤ`.
-/

unseal Rat.mul Rat.inv Rat.add Rat.sub

namespace Epss

/-- Mirrors `models.CVE` (src/internal/domain/models/cve.go): one
(CVE, date) score observation. -/
structure CVE where
  ID : String
  EPSSScore : ℚ
  Percentile : ℚ
  Date : String
deriving DecidableEq

/-- Mirrors `models.ScoreChange` (src/internal/domain/models/cve.go).
The Go `Date` field is a `time.Time`; the model treats time values as an
opaque `String` token. -/
structure ScoreChange where
  CVE : String
  Date : String
  ScoreChange : ℚ
deriving DecidableEq

/-- JSON values, as produced by `json.Unmarshal` into `interface{}`. -/
inductive JVal where
  | jstr (s : String)
  | jnum (q : ℚ)
  | jbool (b : Bool)
  | jnull
  | jarr (elems : List JVal)
  | jobj (fields : List (String × JVal))

/-- Key lookup in an unmarshalled JSON object (`item["key"]`). -/
def lookupJ : List (String × JVal) → String → Option JVal
  | [], _ => none
  | (k, v) :: t, key => if k = key then some v else lookupJ t key

/-- Error values.  Each constructor corresponds to one `fmt.Errorf` site in
src/internal/domain/ports/service.go, carrying what its format string
carries.  `typeAssertFailed` models the unchecked type assertions
`item.(map[string]interface{})` (lines 287 and 343), which panic in Go. -/
inductive Err where
  | fetchFailed (url msg : String)
  | badStatus (status : Nat) (url : String)
  | unmarshalFailed (msg : String)
  | unexpectedType (what : String)
  | typeAssertFailed
  | missingField (fieldName : String)
  | parseFailed (fieldName : String)
  | noCVEFound (cveID : String)
deriving DecidableEq

instance {ε α : Type} [DecidableEq ε] [DecidableEq α] : DecidableEq (Except ε α) := fun x y =>
  match x, y with
  | .error a, .error b =>
    if h : a = b then .isTrue (by rw [h]) else
      .isFalse (fun hc => h (Except.error.inj hc))
  | .error _, .ok _ => .isFalse (fun hc => by cases hc)
  | .ok _, .error _ => .isFalse (fun hc => by cases hc)
  | .ok a, .ok b =>
    if h : a = b then .isTrue (by rw [h]) else
      .isFalse (fun hc => h (Except.ok.inj hc))

/-- A query-parameter value as it appears on the wire: either a plain
string, or the two-decimal numeral written by
`strconv.FormatFloat(_, 'f', 2, 64)`, represented by its value in
hundredths. -/
inductive ParamVal where
  | s (v : String)
  | f2 (hundredths : ℤ)
deriving DecidableEq

abbrev Params := List (String × ParamVal)

/-- Outcome of `http.Get`: a network error, or a response with a status
code and a body (carried as its JSON-parse outcome). -/
inductive HttpResult where
  | netErr (msg : String)
  | resp (status : Nat) (body : Except String JVal)

/-- The HTTP transport oracle: request parameters to response. -/
abbrev Net := Params → HttpResult

/-- Mirrors `apiRepository` plus its two external collaborators (the HTTP
transport and `strconv.ParseFloat`). -/
structure Repo where
  baseURL : String
  net : Net
  parseF : String → Option ℚ

/-- Canonical string for a rational (used only to render URL text and as
the modelled wire encoding of scores inside JSON bodies). -/
def ratStr (q : ℚ) : String := toString q.num ++ "/" ++ toString q.den

/-- Floor of a rational, computably. -/
def ratFloor (q : ℚ) : ℤ := q.num.fdiv (q.den : ℤ)

/-- Round to the nearest integer, ties to even. -/
def roundHalfEven (x : ℚ) : ℤ :=
  let f := ratFloor x
  let r := x - (f : ℚ)
  if r < 1/2 then f
  else if 1/2 < r then f + 1
  else if f % 2 = 0 then f else f + 1

/-- The value, in hundredths, of the numeral
`strconv.FormatFloat(t, 'f', 2, 64)` (line 252 of service.go): `t` rounded
to two decimal digits, ties to even. -/
def roundHundredths (t : ℚ) : ℤ := roundHalfEven (100 * t)

def paramValStr : ParamVal → String
  | .s v => v
  | .f2 h => ratStr ((h : ℚ) / 100)

/-- Mirrors `buildURL` (service.go lines 40–52).  `url.Parse` failure on
the fixed base URL is not modelled (the base is a constant in the CLI). -/
def buildURL (base : String) (params : Params) : String :=
  base ++ "?" ++ String.intercalate "&" (params.map fun p => p.1 ++ "=" ++ paramValStr p.2)

/-- Mirrors `fetchData` (service.go lines 55–68): network error or non-200
status is a failure; otherwise the body is returned. -/
def fetchData (r : Repo) (params : Params) : Except Err (Except String JVal) :=
  match r.net params with
  | .netErr msg => .error (.fetchFailed (buildURL r.baseURL params) msg)
  | .resp status body =>
    if status ≠ 200 then .error (.badStatus status (buildURL r.baseURL params))
    else .ok body

/-- The `json.Unmarshal` step as it appears in each operation: a body that
fails to parse is an `unmarshalFailed` error. -/
def unmarshalStep : Except String JVal → Except Err JVal
  | .error m => .error (.unmarshalFailed m)
  | .ok j => .ok j

/-- Element-wise fallible map over a list (the decode loops in
`convertAPIResponseToCVEData`/`...Array`, which return on first error). -/
def mapME {α β : Type} (f : α → Except Err β) : List α → Except Err (List β)
  | [] => .ok []
  | a :: t =>
    match f a with
    | .error e => .error e
    | .ok b =>
      match mapME f t with
      | .error e => .error e
      | .ok bs => .ok (b :: bs)

/-- Mirrors `convertSingleAPIResponseToCVE` (service.go lines 298–329):
requires `cve`, `epss`, `percentile`, `date` fields present as strings,
with `epss` and `percentile` parseable by `pf` (`strconv.ParseFloat`). -/
def convertSingleAPIResponseToCVE (pf : String → Option ℚ)
    (item : List (String × JVal)) : Except Err CVE :=
  match lookupJ item "cve" with
  | some (.jstr cveID) =>
    match lookupJ item "epss" with
    | some (.jstr epssScore) =>
      match lookupJ item "percentile" with
      | some (.jstr percentile) =>
        match lookupJ item "date" with
        | some (.jstr date) =>
          match pf epssScore with
          | some epssFloat =>
            match pf percentile with
            | some percentileFloat => .ok ⟨cveID, epssFloat, percentileFloat, date⟩
            | none => .error (.parseFailed "percentile")
          | none => .error (.parseFailed "epss")
        | _ => .error (.missingField "date")
      | _ => .error (.missingField "percentile")
    | _ => .error (.missingField "epss")
  | _ => .error (.missingField "cve")

/-- The per-element step of the decode loops: the unchecked assertion
`item.(map[string]interface{})` followed by `convertSingleAPIResponseToCVE`. -/
def elemToCVE (pf : String → Option ℚ) : JVal → Except Err CVE
  | .jobj flds => convertSingleAPIResponseToCVE pf flds
  | _ => .error .typeAssertFailed

/-- Mirrors `convertAPIResponseToCVEData` (service.go lines 276–295). -/
def convertAPIResponseToCVEData (pf : String → Option ℚ) (item : JVal) :
    Except Err (List CVE) :=
  match item with
  | .jobj data =>
    match lookupJ data "data" with
    | some (.jarr apiData) => mapME (elemToCVE pf) apiData
    | _ => .error (.unexpectedType "data")
  | _ => .error (.unexpectedType "response")

/-- Mirrors `convertAPIResponseToCVEDataArray` (service.go lines 332–350);
its body duplicates `convertAPIResponseToCVEData`. -/
def convertAPIResponseToCVEDataArray (pf : String → Option ℚ) (item : JVal) :
    Except Err (List CVE) :=
  match item with
  | .jobj data =>
    match lookupJ data "data" with
    | some (.jarr apiData) => mapME (elemToCVE pf) apiData
    | _ => .error (.unexpectedType "data")
  | _ => .error (.unexpectedType "response")

/-- Query parameters built by `GetCVEScore` (service.go lines 72–75):
`cve`, plus `date` when nonempty.  (`url.Values.Encode` emits keys in
sorted order, which coincides with this list order.) -/
def scoreParams (cveID date : String) : Params :=
  if date = "" then [("cve", .s cveID)]
  else [("cve", .s cveID), ("date", .s date)]

/-- The fetch→unmarshal→convert pipeline of `GetCVEScore`
(service.go lines 76–94). -/
def scorePipeline (r : Repo) (cveID date : String) : Except Err (List CVE) :=
  match fetchData r (scoreParams cveID date) with
  | .error e => .error e
  | .ok body =>
    match unmarshalStep body with
    | .error e => .error e
    | .ok j => convertAPIResponseToCVEData r.parseF j

/-- Mirrors `GetCVEScore` (service.go lines 71–101): empty decoded `data`
is the distinct not-found failure; otherwise the first record is returned. -/
def GetCVEScore (r : Repo) (cveID date : String) : Except Err CVE :=
  match scorePipeline r cveID date with
  | .error e => .error e
  | .ok cveData =>
    match cveData with
    | [] => .error (.noCVEFound cveID)
    | c :: _ => .ok c

/-- Mirrors `GetCVEsAboveThreshold` (service.go lines 251–273): the
threshold is formatted to two decimals into the `<field>-gt` parameter and
the decoded response is returned unchanged. -/
def GetCVEsAboveThreshold (r : Repo) (threshold : ℚ) (field : String) :
    Except Err (List CVE) :=
  match fetchData r [(field ++ "-gt", .f2 (roundHundredths threshold))] with
  | .error e => .error e
  | .ok body =>
    match unmarshalStep body with
    | .error e => .error e
    | .ok j => convertAPIResponseToCVEDataArray r.parseF j

/-- Go map operations on the accumulator `scoreChangesMap`, modelled as an
association list with unique keys. -/
def lookupScore : List (String × ℚ) → String → Option ℚ
  | [], _ => none
  | (k, v) :: t, key => if k = key then some v else lookupScore t key

def updateScore : List (String × ℚ) → String → ℚ → List (String × ℚ)
  | [], _, _ => []
  | (k, v) :: t, key, newV =>
    if k = key then (k, newV) :: t else (k, v) :: updateScore t key newV

/-- The accumulator step of `GetHighestIncreases` (service.go lines
161–173): seed an unseen id with its raw score; for a seen id, replace the
stored value by `current − stored` exactly when that delta strictly
exceeds the stored value. -/
def accumulateScoreChange (m : List (String × ℚ)) (cve : CVE) :
    List (String × ℚ) :=
  match lookupScore m cve.ID with
  | some initialScore =>
    let scoreChange := cve.EPSSScore - initialScore
    if scoreChange > initialScore then updateScore m cve.ID scoreChange else m
  | none => m ++ [(cve.ID, cve.EPSSScore)]

/-- The day offsets fetched by the loop `for i := 0; i <= days; i++`
(service.go line 136). -/
def fetchedDays (days : Nat) : List Nat := List.range (days + 1)

/-- One loop iteration's fetch/unmarshal/convert for a given date
(service.go lines 137–158). -/
def dayPipeline (r : Repo) (date : String) : Except Err (List CVE) :=
  match fetchData r [("date", .s date)] with
  | .error e => .error e
  | .ok body =>
    match unmarshalStep body with
    | .error e => .error e
    | .ok j => convertAPIResponseToCVEDataArray r.parseF j

/-- Descending comparison used by `sort.Slice` (service.go lines 187–189). -/
def descBy (a b : ScoreChange) : Prop := b.ScoreChange ≤ a.ScoreChange

instance : DecidableRel descBy :=
  fun a b => inferInstanceAs (Decidable (b.ScoreChange ≤ a.ScoreChange))

instance : IsTotal ScoreChange descBy :=
  ⟨fun a b => le_total b.ScoreChange a.ScoreChange⟩

instance : IsTrans ScoreChange descBy :=
  ⟨fun _ _ _ h1 h2 => le_trans h2 h1⟩

/-- Emit, sort descending (stably), and truncate (service.go lines
176–196).  The order of the entry list stands for the map iteration order
of line 178; callers that must not rely on a fixed tie order pass an
arbitrary reordering of the accumulator (see `GetHighestIncreasesIter`). -/
def rankScoreChanges (now : String) (limit : Nat) (m : List (String × ℚ)) :
    List ScoreChange :=
  let scoreChanges := m.map fun p => ScoreChange.mk p.1 now p.2
  let sorted := List.insertionSort descBy scoreChanges
  if sorted.length > limit then sorted.take limit else sorted

/-- Mirrors `GetHighestIncreases` (service.go lines 128–197).  `dateOf i`
stands for `startDate.AddDate(0,0,i).Format("2006-01-02")` and `now` for
the `time.Now()` value taken at entry.  The Go loop interleaves fetching
and folding; since the fold is pure and the loop returns on the first
failed day, fetching all days first (`mapME`) is behaviorally identical. -/
def GetHighestIncreases (r : Repo) (dateOf : Nat → String) (now : String)
    (days limit : Nat) : Except Err (List ScoreChange) :=
  match mapME (fun i => dayPipeline r (dateOf i)) (fetchedDays days) with
  | .error e => .error e
  | .ok dayLists =>
    .ok (rankScoreChanges now limit
      (dayLists.foldl (fun m l => l.foldl accumulateScoreChange m) []))

/-- `GetHighestIncreases` with the randomized iteration order of
`for cveID, scoreChange := range scoreChangesMap` (service.go line 178) made
explicit: `iter` reorders the accumulator entries before they are emitted,
sorted and truncated.  The program's possible outputs are exactly those of
`GetHighestIncreasesIter` over permutation-valued `iter`: Go's unstable
`sort.Slice` adds no outcomes beyond what the emission order already
varies, because the model's insertion sort is stable and the comparator
only inspects the delta.  `GetHighestIncreases` is the special case
`iter = id`, adequate for every property insensitive to the order of
tied entries; properties sensitive to tie order must be settled against
this function, quantifying over `iter`. -/
def GetHighestIncreasesIter (r : Repo) (dateOf : Nat → String) (now : String)
    (days limit : Nat) (iter : List (String × ℚ) → List (String × ℚ)) :
    Except Err (List ScoreChange) :=
  match mapME (fun i => dayPipeline r (dateOf i)) (fetchedDays days) with
  | .error e => .error e
  | .ok dayLists =>
    .ok (rankScoreChanges now limit
      (iter (dayLists.foldl (fun m l => l.foldl accumulateScoreChange m) [])))

/-- The wire JSON for one record, as the modelled upstream endpoint emits
it (scores rendered with the canonical rational numeral `ratStr`). -/
def cveJsonFields (c : CVE) : List (String × JVal) :=
  [("cve", .jstr c.ID), ("epss", .jstr (ratStr c.EPSSScore)),
   ("percentile", .jstr (ratStr c.Percentile)), ("date", .jstr c.Date)]

def cveJson (c : CVE) : JVal := .jobj (cveJsonFields c)

def dayJson (l : List CVE) : JVal := .jobj [("data", .jarr (l.map cveJson))]

/-- Modelled from the spec: the upstream EPSS REST endpoint's `<field>-gt`
filtering (spec §6 and §4.2), which is not part of this repository.  Given
its database `db` of records, it returns exactly those records whose named
field strictly exceeds the value carried by the two-decimal numeral in the
query parameter. -/
def epssThresholdNet (db : List CVE) : Net := fun params =>
  match params with
  | [(key, ParamVal.f2 h)] =>
    if key = "epss-gt" then
      .resp 200 (.ok (dayJson (db.filter fun c => decide ((h : ℚ) / 100 < c.EPSSScore))))
    else if key = "percentile-gt" then
      .resp 200 (.ok (dayJson (db.filter fun c => decide ((h : ℚ) / 100 < c.Percentile))))
    else .netErr "unsupported query"
  | _ => .netErr "unsupported query"

/-- The record field named by the threshold query's `field` argument. -/
def thresholdFieldValue (field : String) (c : CVE) : ℚ :=
  if field = "epss" then c.EPSSScore else c.Percentile

/-- The element shape the decode rejects, in the claim's terms: some
required field absent (or not a string), or `epss`/`percentile` present
but unparseable by `pf`.  Mirrors the match structure of
`convertSingleAPIResponseToCVE`. -/
def missingOrBad (pf : String → Option ℚ) (flds : List (String × JVal)) : Bool :=
  match lookupJ flds "cve" with
  | some (.jstr _) =>
    match lookupJ flds "epss" with
    | some (.jstr es) =>
      match lookupJ flds "percentile" with
      | some (.jstr ps) =>
        match lookupJ flds "date" with
        | some (.jstr _) => (pf es).isNone || (pf ps).isNone
        | _ => true
      | _ => true
    | _ => true
  | _ => true

/-- Strictly-descending-by-delta, as claimed of the ranked output. -/
def sortedStrictDesc (l : List ScoreChange) : Prop :=
  l.Pairwise fun a b => b.ScoreChange < a.ScoreChange

/-- A `strconv.ParseFloat` oracle given by a finite table. -/
def tableParse (table : List (String × ℚ)) : String → Option ℚ :=
  fun s => lookupScore table s

/-- A `strconv.ParseFloat` oracle that accepts nothing. -/
def pfNone : String → Option ℚ := fun _ => none

/-- Concrete one-day data set with two CVEs whose accumulator values tie. -/
def c2recs : List CVE :=
  [⟨"CVE-A", 1/2, 0, "2024-01-01"⟩, ⟨"CVE-B", 1/2, 0, "2024-01-01"⟩]

def c2net : Net := fun params =>
  match params with
  | [("date", ParamVal.s _)] => .resp 200 (.ok (dayJson c2recs))
  | _ => .netErr "unexpected request"

def c2pf : String → Option ℚ :=
  tableParse [(ratStr (1/2), 1/2), (ratStr 0, 0)]

def c2repo : Repo := ⟨"https://api.first.org/data/v1/epss", c2net, c2pf⟩

def c2dates : Nat → String := fun _ => "2024-01-01"

/-- Concrete two-day data set of the spec's worked example: CVE-A moves
0.0004 → 0.0009 while CVE-B stays at 0.0005. -/
def c3day0 : List CVE :=
  [⟨"CVE-A", 4/10000, 0, "2024-01-01"⟩, ⟨"CVE-B", 5/10000, 0, "2024-01-01"⟩]

def c3day1 : List CVE :=
  [⟨"CVE-A", 9/10000, 0, "2024-01-02"⟩, ⟨"CVE-B", 5/10000, 0, "2024-01-02"⟩]

def c3net : Net := fun params =>
  match params with
  | [("date", ParamVal.s d)] =>
    if d = "2024-01-01" then .resp 200 (.ok (dayJson c3day0))
    else if d = "2024-01-02" then .resp 200 (.ok (dayJson c3day1))
    else .netErr "unknown date"
  | _ => .netErr "unexpected request"

def c3pf : String → Option ℚ :=
  tableParse [(ratStr (4/10000), 4/10000), (ratStr (9/10000), 9/10000),
    (ratStr (5/10000), 5/10000), (ratStr 0, 0)]

def c3repo : Repo := ⟨"https://api.first.org/data/v1/epss", c3net, c3pf⟩

def c3dates : Nat → String := fun i => if i = 0 then "2024-01-01" else "2024-01-02"

/-- A transport that always answers with HTTP status 500. -/
def c5repo : Repo :=
  ⟨"https://api.first.org/data/v1/epss", fun _ => .resp 500 (.ok .jnull), pfNone⟩

/-- Database for the threshold counterexample: one CVE scored 0.951. -/
def c6db : List CVE := [⟨"CVE-X", 951/1000, 1/2, "2024-01-01"⟩]

def c6pf : String → Option ℚ :=
  tableParse [(ratStr (951/1000), 951/1000), (ratStr (1/2), 1/2)]

def c6repo : Repo := ⟨"https://api.first.org/data/v1/epss", epssThresholdNet c6db, c6pf⟩

/-- A transport that always answers 200 with an empty `data` array. -/
def c7repo : Repo :=
  ⟨"https://api.first.org/data/v1/epss", fun _ => .resp 200 (.ok (dayJson [])), pfNone⟩

/-! ### Helper lemmas: the accumulator map -/

theorem lookupScore_append (m l : List (String × ℚ)) (k : String) :
    lookupScore (m ++ l) k =
      match lookupScore m k with
      | some w => some w
      | none => lookupScore l k := by
  induction m with
  | nil => simp [lookupScore]
  | cons p t ih =>
    by_cases h : p.1 = k <;> simp [lookupScore, h, ih]

theorem lookupScore_eq_none_iff (m : List (String × ℚ)) (k : String) :
    lookupScore m k = none ↔ k ∉ m.map Prod.fst := by
  induction m with
  | nil => simp [lookupScore]
  | cons p t ih =>
    simp only [lookupScore, List.map_cons, List.mem_cons, not_or]
    by_cases h : p.1 = k
    · subst h
      simp
    · simp [h, ih, Ne.symm h]

theorem lookupScore_updateScore_self (m : List (String × ℚ)) (k : String) (v w : ℚ)
    (h : lookupScore m k = some w) :
    lookupScore (updateScore m k v) k = some v := by
  induction m with
  | nil => simp [lookupScore] at h
  | cons p t ih =>
    by_cases hk : p.1 = k
    · simp [lookupScore, updateScore, hk]
    · simp [lookupScore, updateScore, hk] at h ⊢
      exact ih h

theorem lookupScore_updateScore_ne (m : List (String × ℚ)) (k k' : String) (v : ℚ)
    (h : k' ≠ k) :
    lookupScore (updateScore m k v) k' = lookupScore m k' := by
  induction m with
  | nil => simp [updateScore]
  | cons p t ih =>
    by_cases hk : p.1 = k
    · have hne : ¬ p.1 = k' := fun hh => h (hh ▸ hk)
      simp [updateScore, hk, lookupScore, hne, Ne.symm h]
    · simp [updateScore, hk, lookupScore, ih]

theorem map_fst_updateScore (m : List (String × ℚ)) (k : String) (v : ℚ) :
    (updateScore m k v).map Prod.fst = m.map Prod.fst := by
  induction m with
  | nil => rfl
  | cons p t ih =>
    by_cases hk : p.1 = k <;> simp [updateScore, hk, ih]

theorem mem_of_lookupScore_some (m : List (String × ℚ)) (k : String) (v : ℚ)
    (h : lookupScore m k = some v) : k ∈ m.map Prod.fst := by
  by_contra hc
  rw [← lookupScore_eq_none_iff] at hc
  rw [h] at hc
  cases hc

/-! ### Helper lemmas: the accumulator step -/

theorem lookupScore_accumulate_self (m : List (String × ℚ)) (c : CVE) :
    lookupScore (accumulateScoreChange m c) c.ID =
      some (match lookupScore m c.ID with
        | none => c.EPSSScore
        | some v => if c.EPSSScore - v > v then c.EPSSScore - v else v) := by
  unfold accumulateScoreChange
  cases h : lookupScore m c.ID with
  | none =>
    rw [lookupScore_append, h]
    simp [lookupScore]
  | some v =>
    by_cases hgt : c.EPSSScore - v > v
    · simp only [hgt, if_true]
      exact lookupScore_updateScore_self m c.ID _ v h
    · simp only [hgt, if_false]
      rw [h]

theorem lookupScore_accumulate_ne (m : List (String × ℚ)) (c : CVE) (k : String)
    (h : k ≠ c.ID) :
    lookupScore (accumulateScoreChange m c) k = lookupScore m k := by
  unfold accumulateScoreChange
  cases hl : lookupScore m c.ID with
  | none =>
    rw [lookupScore_append]
    cases hk : lookupScore m k with
    | none => simp [lookupScore, Ne.symm h]
    | some w => rfl
  | some v =>
    by_cases hgt : c.EPSSScore - v > v
    · simp only [hgt, if_true]
      exact lookupScore_updateScore_ne m c.ID k _ h
    · simp [hgt]

theorem mem_map_fst_accumulate (m : List (String × ℚ)) (c : CVE) (k : String) :
    k ∈ (accumulateScoreChange m c).map Prod.fst ↔
      k ∈ m.map Prod.fst ∨ k = c.ID := by
  unfold accumulateScoreChange
  cases hl : lookupScore m c.ID with
  | none => simp
  | some v =>
    have hmem : c.ID ∈ m.map Prod.fst := mem_of_lookupScore_some m c.ID v hl
    by_cases hgt : c.EPSSScore - v > v
    · simp only [hgt, if_true, map_fst_updateScore]
      exact ⟨Or.inl, fun h => h.elim id (fun he => he ▸ hmem)⟩
    · simp only [hgt, if_false]
      exact ⟨Or.inl, fun h => h.elim id (fun he => he ▸ hmem)⟩

theorem nodup_map_fst_accumulate (m : List (String × ℚ)) (c : CVE)
    (h : (m.map Prod.fst).Nodup) :
    ((accumulateScoreChange m c).map Prod.fst).Nodup := by
  unfold accumulateScoreChange
  cases hl : lookupScore m c.ID with
  | none =>
    have hnm : c.ID ∉ m.map Prod.fst := (lookupScore_eq_none_iff m c.ID).mp hl
    simp [List.nodup_append, h, hnm]
  | some v =>
    by_cases hgt : c.EPSSScore - v > v
    · simpa only [hgt, if_true, map_fst_updateScore] using h
    · simpa [hgt] using h

/-! ### Helper lemmas: folding a day's records -/

theorem mem_map_fst_foldl (l : List CVE) (m : List (String × ℚ)) (k : String) :
    k ∈ ((l.foldl accumulateScoreChange m).map Prod.fst) ↔
      k ∈ m.map Prod.fst ∨ k ∈ l.map CVE.ID := by
  induction l generalizing m with
  | nil => simp
  | cons c t ih =>
    rw [List.foldl_cons, ih, mem_map_fst_accumulate]
    simp [or_assoc]

theorem nodup_map_fst_foldl (l : List CVE) (m : List (String × ℚ))
    (h : (m.map Prod.fst).Nodup) :
    ((l.foldl accumulateScoreChange m).map Prod.fst).Nodup := by
  induction l generalizing m with
  | nil => exact h
  | cons c t ih => exact ih _ (nodup_map_fst_accumulate m c h)

theorem foldl_seed (l : List CVE) (m : List (String × ℚ))
    (hnd : (l.map CVE.ID).Nodup)
    (hnone : ∀ c ∈ l, lookupScore m c.ID = none) :
    l.foldl accumulateScoreChange m = m ++ l.map (fun c => (c.ID, c.EPSSScore)) := by
  induction l generalizing m with
  | nil => simp
  | cons c t ih =>
    have hc : lookupScore m c.ID = none := hnone c (List.mem_cons_self c t)
    have hstep : accumulateScoreChange m c = m ++ [(c.ID, c.EPSSScore)] := by
      unfold accumulateScoreChange
      rw [hc]
    have hnd' : (c.ID :: t.map CVE.ID).Nodup := by simpa using hnd
    have hid : c.ID ∉ t.map CVE.ID := (List.nodup_cons.mp hnd').1
    have hnone' : ∀ c' ∈ t, lookupScore (m ++ [(c.ID, c.EPSSScore)]) c'.ID = none := by
      intro c' hc'
      rw [lookupScore_append, hnone c' (List.mem_cons_of_mem c hc')]
      have : ¬ c.ID = c'.ID := fun he => hid (he ▸ List.mem_map_of_mem CVE.ID hc')
      simp [lookupScore, this]
    rw [List.foldl_cons, hstep, ih _ (by simpa using (List.nodup_cons.mp hnd').2) hnone']
    simp

theorem foldl_foldl_eq_flatten (dayLists : List (List CVE)) (m : List (String × ℚ)) :
    dayLists.foldl (fun acc l => l.foldl accumulateScoreChange acc) m =
      dayLists.flatten.foldl accumulateScoreChange m := by
  induction dayLists generalizing m with
  | nil => rfl
  | cons l t ih => simp [List.foldl_append, ih]

/-! ### Helper lemmas: `mapME` (the early-returning decode/fetch loops) -/

theorem mapME_error_of_mem {α β : Type} (f : α → Except Err β) (l : List α)
    (a : α) (e0 : Err) (ha : a ∈ l) (hf : f a = .error e0) :
    ∃ e, mapME f l = .error e ∧ ∃ b ∈ l, f b = .error e := by
  induction l with
  | nil => cases ha
  | cons x t ih =>
    cases hx : f x with
    | error e => exact ⟨e, by simp [mapME, hx], x, List.mem_cons_self x t, hx⟩
    | ok b =>
      have ha' : a ∈ t := by
        rcases List.mem_cons.mp ha with he | ht
        · rw [he, hx] at hf
          cases hf
        · exact ht
      obtain ⟨e, he, b', hb', hfb'⟩ := ih ha'
      refine ⟨e, ?_, b', List.mem_cons_of_mem x hb', hfb'⟩
      simp [mapME, hx, he]

theorem mapME_ne_ok_of_mem_bad {α β : Type} (f : α → Except Err β) (l : List α)
    (a : α) (ha : a ∈ l) (hbad : ∀ b, f a ≠ .ok b) :
    ∀ bs, mapME f l ≠ .ok bs := by
  intro bs hok
  cases hfa : f a with
  | ok b => exact hbad b hfa
  | error e0 =>
    obtain ⟨e, he, -⟩ := mapME_error_of_mem f l a e0 ha hfa
    rw [he] at hok
    cases hok

theorem mapME_ok_forall {α β : Type} (f : α → Except Err β) (l : List α)
    (bs : List β) (h : mapME f l = .ok bs) :
    ∀ a ∈ l, ∃ b, f a = .ok b := by
  induction l generalizing bs with
  | nil => intro a ha; cases ha
  | cons x t ih =>
    intro a ha
    cases hx : f x with
    | error e => rw [show mapME f (x :: t) = .error e by simp [mapME, hx]] at h; cases h
    | ok b =>
      cases hm : mapME f t with
      | error e =>
        rw [show mapME f (x :: t) = .error e by simp [mapME, hx, hm]] at h
        cases h
      | ok bs' =>
        rcases List.mem_cons.mp ha with he | ht
        · exact ⟨b, he ▸ hx⟩
        · exact ih bs' hm a ht

theorem mapME_map_ok {α β : Type} (f : β → Except Err α) (g : α → β) (l : List α)
    (h : ∀ a ∈ l, f (g a) = .ok a) : mapME f (l.map g) = .ok l := by
  induction l with
  | nil => rfl
  | cons x t ih =>
    have hx : f (g x) = .ok x := h x (List.mem_cons_self x t)
    have ht : mapME f (t.map g) = .ok t :=
      ih fun a ha => h a (List.mem_cons_of_mem x ha)
    simp [mapME, hx, ht]

theorem mapME_ne_error_target {α β : Type} (f : α → Except Err β) (l : List α)
    (tgt : Err) (h : ∀ a ∈ l, ∀ e, f a = .error e → e ≠ tgt) :
    mapME f l ≠ .error tgt := by
  induction l with
  | nil => intro hc; cases hc
  | cons x t ih =>
    intro hc
    cases hx : f x with
    | error e =>
      rw [show mapME f (x :: t) = .error e by simp [mapME, hx]] at hc
      exact h x (List.mem_cons_self x t) e hx (Except.error.inj hc)
    | ok b =>
      cases hm : mapME f t with
      | error e =>
        rw [show mapME f (x :: t) = .error e by simp [mapME, hx, hm]] at hc
        exact ih (fun a ha => h a (List.mem_cons_of_mem x ha)) (hc ▸ hm)
      | ok bs =>
        rw [show mapME f (x :: t) = .ok (b :: bs) by simp [mapME, hx, hm]] at hc
        cases hc

/-! ### Helper lemmas: decoding -/

theorem convertSingle_ne_noCVEFound (pf : String → Option ℚ)
    (flds : List (String × JVal)) (s : String) :
    convertSingleAPIResponseToCVE pf flds ≠ .error (.noCVEFound s) := by
  unfold convertSingleAPIResponseToCVE
  repeat' split
  all_goals simp

theorem elemToCVE_ne_noCVEFound (pf : String → Option ℚ) (j : JVal) (s : String) :
    elemToCVE pf j ≠ .error (.noCVEFound s) := by
  unfold elemToCVE
  split
  · exact convertSingle_ne_noCVEFound pf _ s
  · simp

theorem mapME_elemToCVE_ne_noCVEFound (pf : String → Option ℚ) (items : List JVal)
    (s : String) :
    mapME (elemToCVE pf) items ≠ .error (.noCVEFound s) := by
  apply mapME_ne_error_target
  intro a _ e he hne
  exact elemToCVE_ne_noCVEFound pf a s (hne ▸ he)

theorem convertData_ne_noCVEFound (pf : String → Option ℚ) (j : JVal) (s : String) :
    convertAPIResponseToCVEData pf j ≠ .error (.noCVEFound s) := by
  unfold convertAPIResponseToCVEData
  repeat' split
  all_goals first
    | exact mapME_elemToCVE_ne_noCVEFound pf _ s
    | simp

theorem convertSingle_isOk_eq (pf : String → Option ℚ)
    (flds : List (String × JVal)) :
    (convertSingleAPIResponseToCVE pf flds).isOk = !missingOrBad pf flds := by
  unfold convertSingleAPIResponseToCVE missingOrBad
  repeat' split
  all_goals simp_all [Except.isOk, Except.toBool]

theorem convertArray_reduce (pf : String → Option ℚ) (items : List JVal) :
    convertAPIResponseToCVEDataArray pf (.jobj [("data", .jarr items)]) =
      mapME (elemToCVE pf) items := by
  simp [convertAPIResponseToCVEDataArray, lookupJ]

theorem elemToCVE_cveJson (pf : String → Option ℚ) (c : CVE)
    (h1 : pf (ratStr c.EPSSScore) = some c.EPSSScore)
    (h2 : pf (ratStr c.Percentile) = some c.Percentile) :
    elemToCVE pf (cveJson c) = .ok c := by
  simp [elemToCVE, cveJson, cveJsonFields, convertSingleAPIResponseToCVE, lookupJ,
    h1, h2]

/-! ### Helper lemmas: emitting, sorting, truncating -/

theorem rankScoreChanges_def (now : String) (limit : Nat) (m : List (String × ℚ)) :
    rankScoreChanges now limit m =
      if (List.insertionSort descBy (m.map fun p => ScoreChange.mk p.1 now p.2)).length > limit
      then (List.insertionSort descBy (m.map fun p => ScoreChange.mk p.1 now p.2)).take limit
      else List.insertionSort descBy (m.map fun p => ScoreChange.mk p.1 now p.2) := rfl

theorem rank_sorted (now : String) (limit : Nat) (m : List (String × ℚ)) :
    List.Sorted descBy (rankScoreChanges now limit m) := by
  rw [rankScoreChanges_def]
  split
  · exact (List.sorted_insertionSort descBy _).sublist (List.take_sublist _ _)
  · exact List.sorted_insertionSort descBy _

theorem rank_length (now : String) (limit : Nat) (m : List (String × ℚ)) :
    (rankScoreChanges now limit m).length = min limit m.length := by
  rw [rankScoreChanges_def]
  split <;> rename_i h <;>
    simp only [List.length_insertionSort, List.length_map, List.length_take] at h ⊢ <;>
    omega

theorem rank_mem (now : String) (limit : Nat) (m : List (String × ℚ))
    (e : ScoreChange) (h : e ∈ rankScoreChanges now limit m) :
    ∃ p ∈ m, e = ScoreChange.mk p.1 now p.2 := by
  rw [rankScoreChanges_def] at h
  have hmem : e ∈ List.insertionSort descBy (m.map fun p => ScoreChange.mk p.1 now p.2) := by
    split at h
    · exact (List.take_sublist _ _).subset h
    · exact h
  rw [List.mem_insertionSort] at hmem
  obtain ⟨p, hp, he⟩ := List.mem_map.mp hmem
  exact ⟨p, hp, he.symm⟩

theorem rank_mem_full (now : String) (limit : Nat) (m : List (String × ℚ))
    (p : String × ℚ) (hp : p ∈ m) (hlen : m.length ≤ limit) :
    ScoreChange.mk p.1 now p.2 ∈ rankScoreChanges now limit m := by
  rw [rankScoreChanges_def]
  have hnottrunc : ¬ (List.insertionSort descBy
      (m.map fun q => ScoreChange.mk q.1 now q.2)).length > limit := by
    simp only [List.length_insertionSort, List.length_map]
    omega
  rw [if_neg hnottrunc, List.mem_insertionSort]
  exact List.mem_map.mpr ⟨p, hp, rfl⟩

theorem rank_map_cve_nodup (now : String) (limit : Nat) (m : List (String × ℚ))
    (h : (m.map Prod.fst).Nodup) :
    ((rankScoreChanges now limit m).map ScoreChange.CVE).Nodup := by
  have hmap : ((m.map fun p => ScoreChange.mk p.1 now p.2).map ScoreChange.CVE) =
      m.map Prod.fst := by
    rw [List.map_map]
    rfl
  have hsortnodup :
      ((List.insertionSort descBy (m.map fun p => ScoreChange.mk p.1 now p.2)).map
        ScoreChange.CVE).Nodup := by
    have hperm := (List.perm_insertionSort descBy
      (m.map fun p => ScoreChange.mk p.1 now p.2)).map ScoreChange.CVE
    exact hperm.nodup_iff.mpr (hmap ▸ h)
  rw [rankScoreChanges_def]
  split
  · exact hsortnodup.sublist ((List.take_sublist _ _).map ScoreChange.CVE)
  · exact hsortnodup

theorem rank_map_cve_of_fold (now : String) (limit : Nat)
    (dayLists : List (List CVE)) :
    (((rankScoreChanges now limit
        (dayLists.foldl (fun m l => l.foldl accumulateScoreChange m) [])).map
          ScoreChange.CVE)).Nodup := by
  apply rank_map_cve_nodup
  rw [foldl_foldl_eq_flatten]
  exact nodup_map_fst_foldl _ [] (by simp)

theorem fetchData_error_shape (r : Repo) (params : Params) (e : Err)
    (h : fetchData r params = .error e) :
    (∃ msg, e = .fetchFailed (buildURL r.baseURL params) msg) ∨
      (∃ status, e = .badStatus status (buildURL r.baseURL params)) := by
  unfold fetchData at h
  cases hn : r.net params with
  | netErr msg =>
    rw [hn] at h
    injection h with h2
    exact Or.inl ⟨msg, h2.symm⟩
  | resp status body =>
    rw [hn] at h
    dsimp only at h
    by_cases hs : status ≠ 200
    · rw [if_pos hs] at h
      injection h with h2
      exact Or.inr ⟨status, h2.symm⟩
    · rw [if_neg hs] at h
      cases h

theorem scorePipeline_ne_noCVEFound (r : Repo) (cveID date s : String) :
    scorePipeline r cveID date ≠ .error (.noCVEFound s) := by
  unfold scorePipeline
  cases hf : fetchData r (scoreParams cveID date) with
  | error e =>
    rcases fetchData_error_shape r _ e hf with ⟨msg, he⟩ | ⟨status, he⟩ <;>
      subst he <;> simp
  | ok body =>
    cases body with
    | error m => simp [unmarshalStep]
    | ok j => exact convertData_ne_noCVEFound r.parseF j s

theorem convertSingle_ne_ok_of_missingOrBad (pf : String → Option ℚ)
    (flds : List (String × JVal)) (h : missingOrBad pf flds = true) :
    ∀ c, convertSingleAPIResponseToCVE pf flds ≠ .ok c := by
  intro c hc
  have hiso := convertSingle_isOk_eq pf flds
  rw [hc, h] at hiso
  simp [Except.isOk, Except.toBool] at hiso

theorem missingOrBad_false_of_ok (pf : String → Option ℚ)
    (flds : List (String × JVal)) (c : CVE)
    (h : convertSingleAPIResponseToCVE pf flds = .ok c) :
    missingOrBad pf flds = false := by
  have hiso := convertSingle_isOk_eq pf flds
  rw [h] at hiso
  simp [Except.isOk, Except.toBool] at hiso
  cases hmb : missingOrBad pf flds
  · rfl
  · rw [hmb] at hiso
    cases hiso

theorem getHighestIncreases_ok (r : Repo) (dateOf : Nat → String) (now : String)
    (days limit : Nat) (dayLists : List (List CVE))
    (h : mapME (fun i => dayPipeline r (dateOf i)) (fetchedDays days) = .ok dayLists) :
    GetHighestIncreases r dateOf now days limit =
      .ok (rankScoreChanges now limit
        (dayLists.foldl (fun m l => l.foldl accumulateScoreChange m) [])) := by
  unfold GetHighestIncreases
  rw [h]

theorem getHighestIncreasesIter_ok (r : Repo) (dateOf : Nat → String) (now : String)
    (days limit : Nat) (iter : List (String × ℚ) → List (String × ℚ))
    (dayLists : List (List CVE))
    (h : mapME (fun i => dayPipeline r (dateOf i)) (fetchedDays days) = .ok dayLists) :
    GetHighestIncreasesIter r dateOf now days limit iter =
      .ok (rankScoreChanges now limit
        (iter (dayLists.foldl (fun m l => l.foldl accumulateScoreChange m) []))) := by
  unfold GetHighestIncreasesIter
  rw [h]

theorem perm_pair_cases {α : Type} (l : List α) (a b : α) (h : l.Perm [a, b]) :
    l = [a, b] ∨ l = [b, a] := by
  have hlen : l.length = 2 := by rw [h.length_eq]; rfl
  cases l with
  | nil => simp at hlen
  | cons x t =>
    cases t with
    | nil => simp at hlen
    | cons y u =>
      cases u with
      | cons z v =>
        simp only [List.length_cons, List.length_nil] at hlen
        omega
      | nil =>
        have hx : x ∈ ([a, b] : List α) := h.subset (List.mem_cons_self x [y])
        rcases List.mem_cons.mp hx with hxa | hxb
        · subst hxa
          left
          rw [List.perm_singleton.mp h.cons_inv]
        · have hxb' : x = b := by simpa using hxb
          subst hxb'
          right
          have hswap : ([x, a] : List α).Perm [a, x] := List.Perm.swap a x []
          have h' : ([x, y] : List α).Perm [x, a] := h.trans hswap.symm
          rw [List.perm_singleton.mp h'.cons_inv]

theorem fold_length_eq_card (dayLists : List (List CVE)) :
    (dayLists.foldl (fun m l => l.foldl accumulateScoreChange m) []).length =
      (dayLists.flatten.map CVE.ID).toFinset.card := by
  rw [foldl_foldl_eq_flatten]
  have hnodup : ((dayLists.flatten.foldl accumulateScoreChange []).map Prod.fst).Nodup :=
    nodup_map_fst_foldl _ [] (by simp)
  have hmem : ∀ k, k ∈ (dayLists.flatten.foldl accumulateScoreChange []).map Prod.fst ↔
      k ∈ dayLists.flatten.map CVE.ID := by
    intro k
    rw [mem_map_fst_foldl]
    simp
  calc (dayLists.flatten.foldl accumulateScoreChange []).length
      = ((dayLists.flatten.foldl accumulateScoreChange []).map Prod.fst).length := by
        rw [List.length_map]
    _ = ((dayLists.flatten.foldl accumulateScoreChange []).map Prod.fst).toFinset.card :=
        (List.toFinset_card_of_nodup hnodup).symm
    _ = (dayLists.flatten.map CVE.ID).toFinset.card := by
        congr 1
        apply Finset.ext
        intro a
        simp only [List.mem_toFinset]
        exact hmem a

/-! ### The claims -/

/-- C1: in the highest-increase aggregation, the per-CVE accumulator step
(`accumulateScoreChange`, folded over every fetched day's records by
`GetHighestIncreases`) seeds a first-seen CVE id with that day's score (not
zero), and on every subsequent sighting of a seen id stores
`current_score − stored_value` exactly when that delta strictly exceeds the
stored value, leaving all other ids untouched — the seed and the delta
share one slot. -/
theorem c1_accumulator_seed_and_delta (m : List (String × ℚ)) (c : CVE) :
    lookupScore (accumulateScoreChange m c) c.ID =
      some (match lookupScore m c.ID with
        | none => c.EPSSScore
        | some v => if c.EPSSScore - v > v then c.EPSSScore - v else v) ∧
    ∀ k, k ≠ c.ID → lookupScore (accumulateScoreChange m c) k = lookupScore m k :=
  ⟨lookupScore_accumulate_self m c, fun k hk => lookupScore_accumulate_ne m c k hk⟩

/-- Witness for C1 at a concrete map and record. -/
theorem c1_accumulator_seed_and_delta_witness :
    (("CVE-B" : String) ≠ "CVE-A") ∧
    lookupScore (accumulateScoreChange [("CVE-A", (1:ℚ)/10)] ⟨"CVE-A", 3/10, 0, "d"⟩)
        "CVE-B" =
      lookupScore [("CVE-A", (1:ℚ)/10)] "CVE-B" :=
  ⟨by decide,
   (c1_accumulator_seed_and_delta [("CVE-A", (1:ℚ)/10)] ⟨"CVE-A", 3/10, 0, "d"⟩).2
     "CVE-B" (by decide)⟩

/-- C2 counterexample: with a single fetched day containing CVE-A and CVE-B
both scored 0.5, both accumulator slots hold 0.5, so the returned list has
two equal adjacent deltas and is not strictly descending as claimed. -/
theorem c2_strict_descending_counterexample :
    GetHighestIncreases c2repo c2dates "now" 0 5 =
      .ok [⟨"CVE-A", "now", 1/2⟩, ⟨"CVE-B", "now", 1/2⟩] ∧
    ¬ sortedStrictDesc [⟨"CVE-A", "now", 1/2⟩, ⟨"CVE-B", "now", 1/2⟩] := by
  constructor
  · decide
  · intro h
    rw [sortedStrictDesc, List.pairwise_cons] at h
    have hx := h.1 ⟨"CVE-B", "now", 1/2⟩ (List.mem_cons_self _ _)
    simp at hx

/-- C2 (amended): the highest-increase output is sorted descending by delta
non-strictly — adjacent deltas may tie, which is what defeats the claimed
strictness — and its length equals min(limit, number of distinct CVE ids
observed across all fetched days). -/
theorem c2_sorted_descending_and_length (r : Repo) (dateOf : Nat → String)
    (now : String) (days limit : Nat) (dayLists : List (List CVE))
    (h : mapME (fun i => dayPipeline r (dateOf i)) (fetchedDays days) = .ok dayLists) :
    ∃ out, GetHighestIncreases r dateOf now days limit = .ok out ∧
      List.Sorted descBy out ∧
      out.length = min limit ((dayLists.flatten.map CVE.ID).toFinset.card) := by
  refine ⟨_, getHighestIncreases_ok r dateOf now days limit dayLists h,
    rank_sorted _ _ _, ?_⟩
  rw [rank_length, fold_length_eq_card]

/-- Witness for C2 (amended) at a concrete repository. -/
theorem c2_sorted_descending_and_length_witness :
    (mapME (fun i => dayPipeline c2repo (c2dates i)) (fetchedDays 0) = .ok [c2recs]) ∧
    (∃ out, GetHighestIncreases c2repo c2dates "now" 0 5 = .ok out ∧
      List.Sorted descBy out ∧
      out.length = min 5 ((([c2recs] : List (List CVE)).flatten.map CVE.ID).toFinset.card)) :=
  ⟨by decide, c2_sorted_descending_and_length c2repo c2dates "now" 0 5 [c2recs] (by decide)⟩

/-- C3 counterexample: on the worked example both accumulator values tie
at exactly 0.0005 (CVE-A's true delta equals CVE-B's raw seeded score), so
the single returned entry depends on the unspecified map iteration order:
under the reachable reversed iteration order the program returns CVE-B,
not CVE-A — refuting "returns … namely CVE-A, ranked ahead of CVE-B" as a
program guarantee.  (`List.reverse` is a permutation of the accumulator,
as the second conjunct records.) -/
theorem c3_worked_example_counterexample :
    GetHighestIncreasesIter c3repo c3dates "now" 1 1 List.reverse =
      .ok [⟨"CVE-B", "now", 5/10000⟩] ∧
    (List.reverse [("CVE-A", (5:ℚ)/10000), ("CVE-B", (5:ℚ)/10000)]).Perm
      [("CVE-A", (5:ℚ)/10000), ("CVE-B", (5:ℚ)/10000)] ∧
    (("CVE-B" : String) ≠ "CVE-A") :=
  ⟨by decide, List.reverse_perm _, by decide⟩

/-- C3 (amended): on the spec's worked example (CVE-A moves
0.0004 → 0.0009, CVE-B stays at 0.0005, days = 1, limit = 1) the
aggregation returns exactly one entry with delta exactly 0.0005, under
every map iteration order; that entry is CVE-A or CVE-B — both tracked
values tie at 0.0005, CVE-A's being the true delta and CVE-B's its raw
seeded score — and which of the two appears is left unspecified by the
program's randomized map iteration and unstable sort, so CVE-A is not
guaranteed to be ranked ahead of CVE-B. -/
theorem c3_worked_example_amended (iter : List (String × ℚ) → List (String × ℚ))
    (hperm : (iter [("CVE-A", (5:ℚ)/10000), ("CVE-B", (5:ℚ)/10000)]).Perm
      [("CVE-A", (5:ℚ)/10000), ("CVE-B", (5:ℚ)/10000)]) :
    ∃ e, GetHighestIncreasesIter c3repo c3dates "now" 1 1 iter = .ok [e] ∧
      e.ScoreChange = 5/10000 ∧ (e.CVE = "CVE-A" ∨ e.CVE = "CVE-B") := by
  have hmap : mapME (fun i => dayPipeline c3repo (c3dates i)) (fetchedDays 1) =
      .ok [c3day0, c3day1] := by decide
  have hrw := getHighestIncreasesIter_ok c3repo c3dates "now" 1 1 iter
    [c3day0, c3day1] hmap
  have hfold : ([c3day0, c3day1] : List (List CVE)).foldl
      (fun m l => l.foldl accumulateScoreChange m) [] =
      [("CVE-A", (5:ℚ)/10000), ("CVE-B", (5:ℚ)/10000)] := by decide
  rw [hfold] at hrw
  rcases perm_pair_cases _ _ _ hperm with hcase | hcase <;> rw [hcase] at hrw
  · exact ⟨⟨"CVE-A", "now", 5/10000⟩, by rw [hrw]; decide, rfl, Or.inl rfl⟩
  · exact ⟨⟨"CVE-B", "now", 5/10000⟩, by rw [hrw]; decide, rfl, Or.inr rfl⟩

/-- Witness for C3 (amended) at the identity iteration order. -/
theorem c3_worked_example_amended_witness :
    ((id [("CVE-A", (5:ℚ)/10000), ("CVE-B", (5:ℚ)/10000)] :
        List (String × ℚ)).Perm
      [("CVE-A", (5:ℚ)/10000), ("CVE-B", (5:ℚ)/10000)]) ∧
    (∃ e, GetHighestIncreasesIter c3repo c3dates "now" 1 1 id = .ok [e] ∧
      e.ScoreChange = 5/10000 ∧ (e.CVE = "CVE-A" ∨ e.CVE = "CVE-B")) :=
  ⟨List.Perm.refl _, c3_worked_example_amended id (List.Perm.refl _)⟩

/-- C4: with days = 0 the aggregation fetches exactly one date (the loop
range is the single day 0), and every returned entry's delta equals that
CVE's own score on that day — the seed-only case — with every record
returned when the limit permits. -/
theorem c4_single_day_window (r : Repo) (dateOf : Nat → String) (now : String)
    (limit : Nat) (l : List CVE)
    (h : dayPipeline r (dateOf 0) = .ok l)
    (hnd : (l.map CVE.ID).Nodup) :
    (fetchedDays 0).length = 1 ∧
    ∃ out, GetHighestIncreases r dateOf now 0 limit = .ok out ∧
      (∀ e ∈ out, ∃ c ∈ l, e.CVE = c.ID ∧ e.ScoreChange = c.EPSSScore) ∧
      (l.length ≤ limit → ∀ c ∈ l, ScoreChange.mk c.ID now c.EPSSScore ∈ out) := by
  have hmap : mapME (fun i => dayPipeline r (dateOf i)) (fetchedDays 0) = .ok [l] := by
    rw [show fetchedDays 0 = [0] from rfl]
    simp [mapME, h]
  have hfold : ([l] : List (List CVE)).foldl
      (fun m d => d.foldl accumulateScoreChange m) [] =
      l.map (fun c => (c.ID, c.EPSSScore)) := by
    simp only [List.foldl_cons, List.foldl_nil]
    rw [foldl_seed l [] hnd (fun c _ => rfl)]
    simp
  refine ⟨rfl, _, getHighestIncreases_ok r dateOf now 0 limit [l] hmap, ?_, ?_⟩
  · intro e he
    rw [hfold] at he
    obtain ⟨p, hp, hep⟩ := rank_mem now limit _ e he
    obtain ⟨c, hc, hcp⟩ := List.mem_map.mp hp
    refine ⟨c, hc, ?_, ?_⟩ <;> rw [hep, ← hcp]
  · intro hlen c hc
    rw [hfold]
    exact rank_mem_full now limit (l.map fun c => (c.ID, c.EPSSScore))
      (c.ID, c.EPSSScore) (List.mem_map.mpr ⟨c, hc, rfl⟩)
      (by rw [List.length_map]; exact hlen)

/-- Witness for C4 at a concrete repository. -/
theorem c4_single_day_window_witness :
    (dayPipeline c2repo (c2dates 0) = .ok c2recs) ∧
    ((c2recs.map CVE.ID).Nodup) ∧
    ((fetchedDays 0).length = 1 ∧
      ∃ out, GetHighestIncreases c2repo c2dates "now" 0 5 = .ok out ∧
        (∀ e ∈ out, ∃ c ∈ c2recs, e.CVE = c.ID ∧ e.ScoreChange = c.EPSSScore) ∧
        (c2recs.length ≤ 5 → ∀ c ∈ c2recs, ScoreChange.mk c.ID "now" c.EPSSScore ∈ out)) :=
  ⟨by decide, by decide,
   c4_single_day_window c2repo c2dates "now" 5 c2recs (by decide) (by decide)⟩

/-- C5: if fetching or decoding any single day inside the window fails, the
whole aggregation returns that day's failure — no partial-window result is
ever returned alongside or instead of the error. -/
theorem c5_day_failure_aborts (r : Repo) (dateOf : Nat → String) (now : String)
    (days limit : Nat)
    (h : ∃ i ∈ fetchedDays days, (dayPipeline r (dateOf i)).isOk = false) :
    (∃ e, GetHighestIncreases r dateOf now days limit = .error e ∧
      ∃ i ∈ fetchedDays days, dayPipeline r (dateOf i) = .error e) ∧
    ∀ out, GetHighestIncreases r dateOf now days limit ≠ .ok out := by
  obtain ⟨i, hi, hbad⟩ := h
  have herr : ∃ e0, dayPipeline r (dateOf i) = .error e0 := by
    cases hd : dayPipeline r (dateOf i) with
    | error e0 => exact ⟨e0, rfl⟩
    | ok l =>
      rw [hd] at hbad
      simp [Except.isOk, Except.toBool] at hbad
  obtain ⟨e0, he0⟩ := herr
  obtain ⟨e, he, j, hj, hje⟩ :=
    mapME_error_of_mem (fun i => dayPipeline r (dateOf i)) (fetchedDays days) i e0 hi he0
  constructor
  · refine ⟨e, ?_, j, hj, hje⟩
    unfold GetHighestIncreases
    rw [he]
  · intro out hout
    unfold GetHighestIncreases at hout
    rw [he] at hout
    cases hout

/-- Witness for C5: a transport answering HTTP 500. -/
theorem c5_day_failure_aborts_witness :
    (∃ i ∈ fetchedDays 0, (dayPipeline c5repo (c2dates i)).isOk = false) ∧
    ((∃ e, GetHighestIncreases c5repo c2dates "now" 0 3 = .error e ∧
      ∃ i ∈ fetchedDays 0, dayPipeline c5repo (c2dates i) = .error e) ∧
    ∀ out, GetHighestIncreases c5repo c2dates "now" 0 3 ≠ .ok out) :=
  ⟨by decide, c5_day_failure_aborts c5repo c2dates "now" 0 3 (by decide)⟩

/-- C6 counterexample: threshold 0.954 is formatted to two decimals as
"0.95", so the (spec-modelled) endpoint filter admits CVE-X with score
0.951, which is at or below the requested threshold — refuting the claim
that every returned record strictly exceeds the given threshold. -/
theorem c6_threshold_counterexample :
    GetCVEsAboveThreshold c6repo (954/1000) "epss" =
      .ok [⟨"CVE-X", 951/1000, 1/2, "2024-01-01"⟩] ∧
    ((951 : ℚ)/1000 ≤ 954/1000) :=
  ⟨by decide, by decide⟩

/-- C6 (amended): every record returned by the threshold query has the
named field strictly greater than the threshold as formatted to two
decimal digits — the value actually sent in the request — rather than the
exact threshold given; records at or below the given threshold but above
its two-decimal rounding can therefore be returned. -/
theorem c6_threshold_filters_formatted (db : List CVE) (base : String)
    (pf : String → Option ℚ) (t : ℚ) (field : String)
    (hf : field = "epss" ∨ field = "percentile")
    (hpf : ∀ c ∈ db, pf (ratStr c.EPSSScore) = some c.EPSSScore ∧
      pf (ratStr c.Percentile) = some c.Percentile) :
    ∃ out, GetCVEsAboveThreshold ⟨base, epssThresholdNet db, pf⟩ t field = .ok out ∧
      out = db.filter
        (fun c => decide ((roundHundredths t : ℚ) / 100 < thresholdFieldValue field c)) ∧
      ∀ c ∈ out, (roundHundredths t : ℚ) / 100 < thresholdFieldValue field c := by
  rcases hf with hf | hf <;> subst hf
  · have hev : ∀ c : CVE, thresholdFieldValue "epss" c = c.EPSSScore :=
      fun c => if_pos rfl
    have hnet : epssThresholdNet db [("epss" ++ "-gt", ParamVal.f2 (roundHundredths t))] =
        .resp 200 (.ok (dayJson (db.filter
          fun c => decide ((roundHundredths t : ℚ)/100 < c.EPSSScore)))) := rfl
    have hdecode : convertAPIResponseToCVEDataArray pf (dayJson (db.filter
        fun c => decide ((roundHundredths t : ℚ)/100 < c.EPSSScore))) =
        .ok (db.filter fun c => decide ((roundHundredths t : ℚ)/100 < c.EPSSScore)) := by
      rw [show dayJson (db.filter
          fun c => decide ((roundHundredths t : ℚ)/100 < c.EPSSScore)) =
        .jobj [("data", .jarr ((db.filter
          fun c => decide ((roundHundredths t : ℚ)/100 < c.EPSSScore)).map cveJson))]
        from rfl]
      rw [convertArray_reduce]
      apply mapME_map_ok
      intro c hc
      have hcdb := List.mem_of_mem_filter hc
      exact elemToCVE_cveJson pf c (hpf c hcdb).1 (hpf c hcdb).2
    have hfun : (fun c => decide ((roundHundredths t : ℚ)/100 <
        thresholdFieldValue "epss" c)) =
        (fun c : CVE => decide ((roundHundredths t : ℚ)/100 < c.EPSSScore)) := by
      funext c
      rw [hev]
    refine ⟨db.filter (fun c => decide ((roundHundredths t : ℚ)/100 < c.EPSSScore)),
      ?_, by rw [hfun], ?_⟩
    · unfold GetCVEsAboveThreshold fetchData
      rw [show (Repo.mk base (epssThresholdNet db) pf).net = epssThresholdNet db from rfl,
        hnet]
      simpa [unmarshalStep] using hdecode
    · intro c hc
      rw [hev]
      exact of_decide_eq_true (List.mem_filter.mp hc).2
  · have hev : ∀ c : CVE, thresholdFieldValue "percentile" c = c.Percentile :=
      fun c => if_neg (by decide)
    have hnet : epssThresholdNet db
        [("percentile" ++ "-gt", ParamVal.f2 (roundHundredths t))] =
        .resp 200 (.ok (dayJson (db.filter
          fun c => decide ((roundHundredths t : ℚ)/100 < c.Percentile)))) := rfl
    have hdecode : convertAPIResponseToCVEDataArray pf (dayJson (db.filter
        fun c => decide ((roundHundredths t : ℚ)/100 < c.Percentile))) =
        .ok (db.filter fun c => decide ((roundHundredths t : ℚ)/100 < c.Percentile)) := by
      rw [show dayJson (db.filter
          fun c => decide ((roundHundredths t : ℚ)/100 < c.Percentile)) =
        .jobj [("data", .jarr ((db.filter
          fun c => decide ((roundHundredths t : ℚ)/100 < c.Percentile)).map cveJson))]
        from rfl]
      rw [convertArray_reduce]
      apply mapME_map_ok
      intro c hc
      have hcdb := List.mem_of_mem_filter hc
      exact elemToCVE_cveJson pf c (hpf c hcdb).1 (hpf c hcdb).2
    have hfun : (fun c => decide ((roundHundredths t : ℚ)/100 <
        thresholdFieldValue "percentile" c)) =
        (fun c : CVE => decide ((roundHundredths t : ℚ)/100 < c.Percentile)) := by
      funext c
      rw [hev]
    refine ⟨db.filter (fun c => decide ((roundHundredths t : ℚ)/100 < c.Percentile)),
      ?_, by rw [hfun], ?_⟩
    · unfold GetCVEsAboveThreshold fetchData
      rw [show (Repo.mk base (epssThresholdNet db) pf).net = epssThresholdNet db from rfl,
        hnet]
      simpa [unmarshalStep] using hdecode
    · intro c hc
      rw [hev]
      exact of_decide_eq_true (List.mem_filter.mp hc).2

/-- Witness for C6 (amended) at a concrete database and parser. -/
theorem c6_threshold_filters_formatted_witness :
    (("epss" : String) = "epss" ∨ ("epss" : String) = "percentile") ∧
    (∀ c ∈ c6db, c6pf (ratStr c.EPSSScore) = some c.EPSSScore ∧
      c6pf (ratStr c.Percentile) = some c.Percentile) ∧
    (∃ out, GetCVEsAboveThreshold
        ⟨"https://api.first.org/data/v1/epss", epssThresholdNet c6db, c6pf⟩
        (954/1000) "epss" = .ok out ∧
      out = c6db.filter
        (fun c => decide ((roundHundredths (954/1000) : ℚ) / 100 <
          thresholdFieldValue "epss" c)) ∧
      ∀ c ∈ out, (roundHundredths (954/1000) : ℚ) / 100 <
        thresholdFieldValue "epss" c) :=
  ⟨Or.inl rfl, by decide,
   c6_threshold_filters_formatted c6db "https://api.first.org/data/v1/epss" c6pf
     (954/1000) "epss" (Or.inl rfl) (by decide)⟩

/-- C7: a decoded point-score response with an empty data array yields the
distinct not-found failure — which arises from no transport or decode
error, since those surface as other error constructors — and never a
record; a non-empty response yields its first record and no error. -/
theorem c7_empty_result_not_found (r : Repo) (cveID date : String) :
    (GetCVEScore r cveID date = .error (.noCVEFound cveID) ↔
      scorePipeline r cveID date = .ok []) ∧
    ∀ c rest, scorePipeline r cveID date = .ok (c :: rest) →
      GetCVEScore r cveID date = .ok c := by
  constructor
  · unfold GetCVEScore
    cases hp : scorePipeline r cveID date with
    | error e =>
      constructor
      · intro hc
        injection hc with h2
        exact absurd hp (h2 ▸ scorePipeline_ne_noCVEFound r cveID date cveID)
      · intro hc
        cases hc
    | ok cveData =>
      cases cveData with
      | nil => simp
      | cons c rest => simp
  · intro c rest hp
    unfold GetCVEScore
    rw [hp]

/-- Witness for C7: a transport answering 200 with an empty data array. -/
theorem c7_empty_result_not_found_witness :
    (scorePipeline c7repo "CVE-Z" "" = .ok []) ∧
    GetCVEScore c7repo "CVE-Z" "" = .error (.noCVEFound "CVE-Z") :=
  ⟨by decide, (c7_empty_result_not_found c7repo "CVE-Z" "").1.mpr (by decide)⟩

/-- C8: decoding requires every data element to carry cve, epss,
percentile and date as strings with epss and percentile parseable; an
element violating this makes the whole conversion fail with an error and
no partial list, and a successful conversion certifies every element was
well-formed. -/
theorem c8_decode_all_or_nothing :
    (∀ pf flds, missingOrBad pf flds = true →
      ∀ c, convertSingleAPIResponseToCVE pf flds ≠ .ok c) ∧
    (∀ pf (items : List JVal) flds, JVal.jobj flds ∈ items →
      missingOrBad pf flds = true →
      ∀ l, convertAPIResponseToCVEDataArray pf (.jobj [("data", .jarr items)]) ≠ .ok l) ∧
    (∀ pf (items : List JVal) l,
      convertAPIResponseToCVEDataArray pf (.jobj [("data", .jarr items)]) = .ok l →
      ∀ item ∈ items, ∃ flds c, item = .jobj flds ∧
        convertSingleAPIResponseToCVE pf flds = .ok c ∧
        missingOrBad pf flds = false) := by
  refine ⟨convertSingle_ne_ok_of_missingOrBad, ?_, ?_⟩
  · intro pf items flds hmem hbad l
    rw [convertArray_reduce]
    exact mapME_ne_ok_of_mem_bad (elemToCVE pf) items (.jobj flds) hmem
      (fun b => convertSingle_ne_ok_of_missingOrBad pf flds hbad b) l
  · intro pf items l hok item hitem
    rw [convertArray_reduce] at hok
    obtain ⟨c, hc⟩ := mapME_ok_forall (elemToCVE pf) items l hok item hitem
    cases item with
    | jobj flds => exact ⟨flds, c, rfl, hc, missingOrBad_false_of_ok pf flds c hc⟩
    | jstr s => simp [elemToCVE] at hc
    | jnum q => simp [elemToCVE] at hc
    | jbool b => simp [elemToCVE] at hc
    | jnull => simp [elemToCVE] at hc
    | jarr xs => simp [elemToCVE] at hc

/-- Witness for C8 at a concrete malformed element. -/
theorem c8_decode_all_or_nothing_witness :
    (missingOrBad pfNone [] = true) ∧
    (∀ c, convertSingleAPIResponseToCVE pfNone [] ≠ .ok c) ∧
    (∀ l, convertAPIResponseToCVEDataArray pfNone
      (.jobj [("data", .jarr [JVal.jobj []])]) ≠ .ok l) :=
  ⟨by decide, c8_decode_all_or_nothing.1 pfNone [] (by decide),
   fun l => c8_decode_all_or_nothing.2.1 pfNone [JVal.jobj []] []
     (List.mem_cons_self _ _) (by decide) l⟩

/-- C9: every successful highest-increase result has pairwise-distinct CVE
ids and every entry carries the single timestamp taken at invocation
start. -/
theorem c9_distinct_ids_single_timestamp (r : Repo) (dateOf : Nat → String)
    (now : String) (days limit : Nat) (out : List ScoreChange)
    (h : GetHighestIncreases r dateOf now days limit = .ok out) :
    (out.map ScoreChange.CVE).Nodup ∧ ∀ e ∈ out, e.Date = now := by
  unfold GetHighestIncreases at h
  cases hm : mapME (fun i => dayPipeline r (dateOf i)) (fetchedDays days) with
  | error e =>
    rw [hm] at h
    cases h
  | ok dayLists =>
    rw [hm] at h
    injection h with h2
    subst h2
    constructor
    · exact rank_map_cve_of_fold now limit dayLists
    · intro e he
      obtain ⟨p, hp, hep⟩ := rank_mem now limit _ e he
      rw [hep]

/-- Witness for C9 on the worked two-day example. -/
theorem c9_distinct_ids_single_timestamp_witness :
    (GetHighestIncreases c3repo c3dates "now" 1 2 =
      .ok [⟨"CVE-A", "now", 5/10000⟩, ⟨"CVE-B", "now", 5/10000⟩]) ∧
    ((([⟨"CVE-A", "now", (5:ℚ)/10000⟩, ⟨"CVE-B", "now", 5/10000⟩] :
        List ScoreChange).map ScoreChange.CVE).Nodup ∧
      ∀ e ∈ ([⟨"CVE-A", "now", (5:ℚ)/10000⟩, ⟨"CVE-B", "now", 5/10000⟩] :
        List ScoreChange), e.Date = "now") :=
  ⟨by decide,
   c9_distinct_ids_single_timestamp c3repo c3dates "now" 1 2
     [⟨"CVE-A", "now", 5/10000⟩, ⟨"CVE-B", "now", 5/10000⟩] (by decide)⟩

/-- C10: the threshold is formatted into the outgoing query parameter with
exactly two decimal digits, so two thresholds with the same two-decimal
rounding produce the identical request and the identical result against
any transport. -/
theorem c10_two_decimal_formatting (base : String) (net : Net)
    (pf : String → Option ℚ) (field : String) (t1 t2 : ℚ)
    (h : roundHundredths t1 = roundHundredths t2) :
    ([(field ++ "-gt", ParamVal.f2 (roundHundredths t1))] : Params) =
      [(field ++ "-gt", ParamVal.f2 (roundHundredths t2))] ∧
    GetCVEsAboveThreshold ⟨base, net, pf⟩ t1 field =
      GetCVEsAboveThreshold ⟨base, net, pf⟩ t2 field := by
  constructor
  · rw [h]
  · unfold GetCVEsAboveThreshold
    rw [h]

/-- Witness for C10: the IEEE-754 doubles written `0.955` and `0.95` (exact
values 8601875288277647/2^53 and 8556839292003942/2^53) both format to
"0.95" and so produce identical requests and results. -/
theorem c10_two_decimal_formatting_witness :
    roundHundredths ((8601875288277647 : ℚ) / 9007199254740992) =
      roundHundredths ((8556839292003942 : ℚ) / 9007199254740992) ∧
    GetCVEsAboveThreshold ⟨"b", epssThresholdNet [], pfNone⟩
        ((8601875288277647 : ℚ) / 9007199254740992) "epss" =
      GetCVEsAboveThreshold ⟨"b", epssThresholdNet [], pfNone⟩
        ((8556839292003942 : ℚ) / 9007199254740992) "epss" :=
  ⟨by decide,
   (c10_two_decimal_formatting "b" (epssThresholdNet []) pfNone "epss" _ _
     (by decide)).2⟩

end Epss
